import Mathlib

/-!
Verification development for the obamify-web pixel-rearrangement application.

The definitions below are shallow embeddings of the TypeScript sources:
  - utils/math.ts        : heuristic, SeededRNG (Mulberry32), hashCode, clamp
  - workers/algorithms.ts: processGenetic, processOptimal
  - utils/image.ts       : applyCropScale (buffer shape; canvas resampling abstracted)
  - rendering/voronoi.ts : renderVoronoi, renderVoronoiOptimized (per-pixel)
  - simulation/CellBody.ts, simulation/Sim.ts : particle physics
  - workers/drawing-worker.ts : maxDist policy and trial sampling

Modelling conventions: JavaScript numbers are embedded as exact values
(naturals, integers, rationals, or reals); IEEE-754 rounding is idealized to
exact arithmetic.  All quantities appearing in the claims are integer-valued
in every reachable run, where float arithmetic agrees with the exact model.
Bitwise 32-bit operations (ToInt32 / ToUint32 coercions) are modelled
explicitly modulo 2^32.
-/

namespace Obamify

/-- RGB triple, channels 0..255 as integers. -/
abbrev RGB := ℤ × ℤ × ℤ

/-- Heuristic cost from utils/math.ts (heuristic): squared color distance times
the color weight plus the square of (squared spatial distance times the spatial
weight).  Positions are passed as integer pairs. -/
def heuristic (apos bpos : ℤ × ℤ) (a b : RGB) (colorWeight spatialWeight : ℤ) : ℤ :=
  let spatial := (apos.1 - bpos.1) ^ 2 + (apos.2 - bpos.2) ^ 2
  let color := (a.1 - b.1) ^ 2 + (a.2.1 - b.2.1) ^ 2 + (a.2.2 - b.2.2) ^ 2
  color * colorWeight + (spatial * spatialWeight) ^ 2

/-- One step of the Mulberry32 generator from utils/math.ts (SeededRNG.next).
The JS state accumulates 0x6d2b79f5 exactly (no wrap: the state is a float);
all uses of the state inside one step go through 32-bit coercions, modelled by
reduction modulo 2^32.  Returns (new state, output numerator t3 < 2^32); the JS
output is t3 / 2^32. -/
def mulberryNext (state : ℕ) : ℕ × ℕ :=
  let s := state + 1831565813
  let t0 := s % 4294967296
  let p1 := Nat.xor t0 (t0 >>> 15)
  let t1 := (p1 * (t0 ||| 1)) % 4294967296
  let q1 := Nat.xor t1 (t1 >>> 7)
  let m2 := (q1 * (t1 ||| 61)) % 4294967296
  let t2 := Nat.xor t1 ((t1 + m2) % 4294967296)
  let t3 := Nat.xor t2 (t2 >>> 14)
  (s, t3)

/-- SeededRNG.range(lo, hi) = floor(next() * (hi - lo)) + lo, for lo ≤ hi,
where the next() output is k / 2^32.  Exact for a nonnegative span. -/
def rngRange (k : ℕ) (lo hi : ℤ) : ℤ :=
  lo + ((k * (hi - lo).toNat) / 4294967296 : ℕ)

/-- ToInt32: reduce an integer to the signed 32-bit range, as the JS bitwise
operators do. -/
def toInt32 (z : ℤ) : ℤ :=
  let m := z % 4294967296
  if m < 2147483648 then m else m - 4294967296

/-- String hash from utils/math.ts (hashCode), over the char-code list.  Each
step is hash = ToInt32((hash << 5) - hash + char); the result is the absolute
value.  The shifted intermediate agrees with 31·hash + char modulo 2^32. -/
def hashCode (chars : List ℕ) : ℕ :=
  (chars.foldl (fun h c => toInt32 (31 * h + c)) 0).natAbs

/-- Per-position state of the Genetic solver (workers/algorithms.ts,
processGenetic): the owner's source coordinates, its color, and the stored
heuristic value h. -/
structure GPixel where
  srcX : ℕ
  srcY : ℕ
  rgb : RGB
  h : ℤ
  deriving DecidableEq

/-- Default pixel used as the out-of-range fallback of list lookups (the JS
code never reads out of range in a reachable run). -/
def gpix0 : GPixel := ⟨0, 0, (0, 0, 0), 0⟩

/-- Initial pixel array of processGenetic: position i owns itself, with
h = heuristic(p, p, palette[p], target[p], weight[p], ws). -/
def geneticInit (src tgt : List RGB) (w : List ℤ) (ws : ℤ) (S : ℕ) : List GPixel :=
  (List.range src.length).map fun i =>
    let x := i % S
    let y := i / S
    { srcX := x, srcY := y, rgb := src.getD i (0, 0, 0),
      h := heuristic (x, y) (x, y) (src.getD i (0, 0, 0)) (tgt.getD i (0, 0, 0))
            (w.getD i 0) ws }

/-- Trial heuristic aOnBH of processGenetic: the owner of position apos placed
at position bpos (spatial term between the two placements). -/
def aPlacedAtB (tgt : List RGB) (w : List ℤ) (ws : ℤ) (S : ℕ) (ps : List GPixel)
    (apos bpos : ℕ) : ℤ :=
  heuristic ((bpos % S : ℕ), (bpos / S : ℕ)) ((apos % S : ℕ), (apos / S : ℕ))
    (ps.getD apos gpix0).rgb (tgt.getD bpos (0, 0, 0)) (w.getD bpos 0) ws

/-- Trial heuristic bOnAH of processGenetic: the owner of position bpos placed
at position apos. -/
def bPlacedAtA (tgt : List RGB) (w : List ℤ) (ws : ℤ) (S : ℕ) (ps : List GPixel)
    (apos bpos : ℕ) : ℤ :=
  heuristic ((apos % S : ℕ), (apos / S : ℕ)) ((bpos % S : ℕ), (bpos / S : ℕ))
    (ps.getD bpos gpix0).rgb (tgt.getD apos (0, 0, 0)) (w.getD apos 0) ws

/-- Overwrite the stored h value at index i. -/
def hSet (l : List GPixel) (i : ℕ) (v : ℤ) : List GPixel :=
  l.set i { l.getD i gpix0 with h := v }

/-- Core of one trial of processGenetic at chosen positions apos and bpos
(lines 124-157): compute the two trial heuristics, and if the improvement sum
is positive swap the two entries and write the updated h values exactly as the
source does (position apos receives aOnBH, position bpos receives bOnAH).
Returns the new array and whether the swap was accepted. -/
def geneticTrialAt (tgt : List RGB) (w : List ℤ) (ws : ℤ) (S : ℕ)
    (ps : List GPixel) (apos bpos : ℕ) : List GPixel × Bool :=
  let aOnBH := aPlacedAtB tgt w ws S ps apos bpos
  let bOnAH := bPlacedAtA tgt w ws S ps apos bpos
  let pA := ps.getD apos gpix0
  let pB := ps.getD bpos gpix0
  if pA.h - bOnAH + (pB.h - aOnBH) > 0 then
    let ps1 := (ps.set apos pB).set bpos pA
    let ps2 := hSet ps1 apos aOnBH
    let ps3 := hSet ps2 bpos bOnAH
    (ps3, true)
  else (ps, false)

/-- Clamp from utils/math.ts over integers:
clamp(value, min, max) = Math.max(min, Math.min(max, value)). -/
def clampI (value lo hi : ℤ) : ℤ := max lo (min hi value)

/-- Mutable state of the Genetic solver between trials. -/
structure GenState where
  ps : List GPixel
  rng : ℕ
  maxDist : ℕ

/-- One rng-driven trial of processGenetic (lines 114-157): sample apos
uniformly, sample b in the square of side 2·maxDist around a clamped to the
board, and run the trial swap. -/
def geneticTrialStep (tgt : List RGB) (w : List ℤ) (ws : ℤ) (S : ℕ)
    (st : GenState) : GenState × Bool :=
  let N := st.ps.length
  let s1 := mulberryNext st.rng
  let apos := s1.2 * N / 4294967296
  let ax : ℤ := apos % S
  let ay : ℤ := apos / S
  let m : ℤ := st.maxDist
  let s2 := mulberryNext s1.1
  let bx := clampI (ax + rngRange s2.2 (-m) (m + 1)) 0 ((S : ℤ) - 1)
  let s3 := mulberryNext s2.1
  let byv := clampI (ay + rngRange s3.2 (-m) (m + 1)) 0 ((S : ℤ) - 1)
  let bpos := byv.toNat * S + bx.toNat
  let res := geneticTrialAt tgt w ws S st.ps apos bpos
  ({ ps := res.1, rng := s3.1, maxDist := st.maxDist }, res.2)

/-- Run n consecutive trials, counting accepted swaps. -/
def geneticTrials (tgt : List RGB) (w : List ℤ) (ws : ℤ) (S : ℕ) :
    ℕ → GenState → GenState × ℕ
  | 0, st => (st, 0)
  | n + 1, st =>
    let r := geneticTrialStep tgt w ws S st
    let rest := geneticTrials tgt w ws S n r.1
    (rest.1, rest.2 + (if r.2 then 1 else 0))

/-- One generation: 128 · N trials (swapsPerGeneration). -/
def geneticGeneration (tgt : List RGB) (w : List ℤ) (ws : ℤ) (S : ℕ)
    (st : GenState) : GenState × ℕ :=
  geneticTrials tgt w ws S (128 * st.ps.length) st

/-- Outer loop of processGenetic with explicit fuel standing for the unbounded
while loop: after each generation, stop when maxDist < 4 and fewer than 10
swaps were made, otherwise shrink maxDist to max(2, floor(maxDist · 0.99)) and
continue. -/
def geneticLoop (tgt : List RGB) (w : List ℤ) (ws : ℤ) (S : ℕ) :
    ℕ → GenState → GenState
  | 0, st => st
  | fuel + 1, st =>
    let g := geneticGeneration tgt w ws S st
    if g.1.maxDist < 4 ∧ g.2 < 10 then g.1
    else geneticLoop tgt w ws S fuel
      { ps := g.1.ps, rng := g.1.rng, maxDist := max 2 (99 * g.1.maxDist / 100) }

/-- Assignments emitted by the solver: for each position, the linear source
index srcY · S + srcX of its current owner. -/
def assignmentsOf (S : ℕ) (ps : List GPixel) : List ℕ :=
  ps.map fun p => p.srcY * S + p.srcX

/-- Sum over all positions of the stored heuristic values. -/
def sumH (ps : List GPixel) : ℤ := (ps.map GPixel.h).sum

/-- The semantic counterpart of sumH: the sum over all positions of the
heuristic of the position's current owner placed at that position (both
placement arguments equal, so the spatial term vanishes), recomputed from the
state with the source's heuristic instead of read from the stored h fields.
This is the quantity the monotone-improvement sentence of the spec names; the
crossed h writes of geneticTrialAt make it diverge from sumH. -/
def ownerHeuristicSum (tgt : List RGB) (w : List ℤ) (ws : ℤ) (S : ℕ)
    (ps : List GPixel) : ℤ :=
  ((List.range ps.length).map fun i =>
    heuristic ((i % S : ℕ), (i / S : ℕ)) ((i % S : ℕ), (i / S : ℕ))
      (ps.getD i gpix0).rgb (tgt.getD i (0, 0, 0)) (w.getD i 0) ws).sum

/-- Full Genetic pipeline of processGenetic, from the inputs the claims name:
the settings id (as char codes, hashed to the rng seed), the cropped source
palette, the optional custom target (otherwise the source is its own target),
the proximity importance, the side length, and fuel for the while loop.
Weights are uniformly 255 as in the source.  Returns the assignments sent in
the done message. -/
def processGeneticModel (id : List ℕ) (src : List RGB) (customTarget : Option (List RGB))
    (ws : ℤ) (S : ℕ) (fuel : ℕ) : List ℕ :=
  let tgt := customTarget.getD src
  let w : List ℤ := List.replicate tgt.length 255
  let st0 : GenState := { ps := geneticInit src tgt w ws S, rng := hashCode id, maxDist := S }
  assignmentsOf S (geneticLoop tgt w ws S fuel st0).ps

/-- Score of one candidate source pixel for a target in processOptimal. -/
def greedyScore (src tgt : List RGB) (w : List ℤ) (ws : ℤ) (S : ℕ)
    (targetIdx srcIdx : ℕ) : ℤ :=
  heuristic ((srcIdx % S : ℕ), (srcIdx / S : ℕ))
    ((targetIdx % S : ℕ), (targetIdx / S : ℕ))
    (src.getD srcIdx (0, 0, 0)) (tgt.getD targetIdx (0, 0, 0))
    (w.getD targetIdx 0) ws

/-- Body of the inner scan of processOptimal: skip consumed sources, keep the
strictly best score seen so far (none plays the role of the initial Infinity,
so ties keep the smaller index). -/
def greedyConsider (assigned : List ℕ) (score : ℕ → ℤ)
    (best : Option (ℤ × ℕ)) (srcIdx : ℕ) : Option (ℤ × ℕ) :=
  if assigned.contains srcIdx then best
  else
    match best with
    | none => some (score srcIdx, srcIdx)
    | some (bs, bi) => if score srcIdx < bs then some (score srcIdx, srcIdx) else some (bs, bi)

/-- Inner scan of processOptimal (lines 264-284) over ascending source
indices. -/
def greedyBest (src tgt : List RGB) (w : List ℤ) (ws : ℤ) (S : ℕ)
    (assigned : List ℕ) (targetIdx : ℕ) : Option (ℤ × ℕ) :=
  (List.range (S * S)).foldl
    (greedyConsider assigned (greedyScore src tgt w ws S targetIdx)) none

/-- One target step of processOptimal: if a best unassigned source exists, mark
it consumed and append it to the assignments. -/
def greedyStep (src tgt : List RGB) (w : List ℤ) (ws : ℤ) (S : ℕ)
    (st : List ℕ × List ℕ) (targetIdx : ℕ) : List ℕ × List ℕ :=
  match greedyBest src tgt w ws S st.1 targetIdx with
  | some p => (st.1 ++ [p.2], st.2 ++ [p.2])
  | none => st

/-- Finalization of processOptimal (lines 309-311): while the assignment list
is shorter than n, push its current length. -/
def fillTo (l : List ℕ) (n : ℕ) : List ℕ :=
  l ++ List.range' l.length (n - l.length)

/-- Full Greedy pipeline of processOptimal: iterate the per-target step over
all n = S·S targets in row-major order, then fill.  Returns the assignments
sent in the done message. -/
def processOptimalModel (src : List RGB) (customTarget : Option (List RGB))
    (ws : ℤ) (S : ℕ) : List ℕ :=
  let tgt := customTarget.getD src
  let w : List ℤ := List.replicate tgt.length 255
  let n := S * S
  let final := (List.range n).foldl (fun st t => greedyStep src tgt w ws S st t) ([], [])
  fillTo final.2 n

/-- Clamp from utils/math.ts over rationals. -/
def clampQ (value lo hi : ℚ) : ℚ := max lo (min hi value)

/-- Crop and scale parameters (types/index.ts CropScale). -/
structure CropScale where
  scale : ℚ
  x : ℚ
  y : ℚ

/-- Shape-level embedding of utils/image.ts applyCropScale.  The crop side is
computed exactly as in the source; the x0/y0 offsets only position the crop
rectangle and cannot change the size of the returned buffer.  When cropSide
equals targetSideLen the source buffer is returned unchanged; otherwise the
canvas resample produces a fresh buffer of 3·S² bytes whose contents (browser
dependent) are abstracted by the resample parameter. -/
def applyCropScale (sourceImg : List ℕ) (sourceWidth sourceHeight : ℕ)
    (targetSideLen : ℕ) (cropScale : CropScale) (resample : ℕ → ℕ) : List ℕ :=
  let s : ℚ := max 1 cropScale.scale
  let baseSide : ℚ := min (sourceWidth : ℚ) (sourceHeight : ℚ)
  let cropSide : ℤ :=
    ⌊max 1 (min (baseSide / s) (min (sourceWidth : ℚ) (sourceHeight : ℚ)))⌋
  let xn := clampQ cropScale.x (-1) 1 * (1/2) + 1/2
  let yn := clampQ cropScale.y (-1) 1 * (1/2) + 1/2
  let maxOffX : ℤ := max 0 ((sourceWidth : ℤ) - cropSide)
  let maxOffY : ℤ := max 0 ((sourceHeight : ℤ) - cropSide)
  let _x0 : ℤ := ⌊xn * (maxOffX : ℚ)⌋
  let _y0 : ℤ := ⌊yn * (maxOffY : ℚ)⌋
  if cropSide = (targetSideLen : ℤ) then sourceImg
  else (List.range (targetSideLen * targetSideLen * 3)).map resample

/-- Voronoi seed position (types/index.ts SeedPos), coordinates as exact
rationals. -/
structure Seed where
  x : ℚ
  y : ℚ
  deriving DecidableEq

/-- Normalized seed color in [0,1] per channel (types/index.ts SeedColor). -/
structure SeedColor where
  r : ℚ
  g : ℚ
  b : ℚ
  a : ℚ
  deriving DecidableEq

/-- Squared Euclidean distance from a seed to the pixel (x, y). -/
def dist2 (s : Seed) (x y : ℚ) : ℚ := (s.x - x) ^ 2 + (s.y - y) ^ 2

/-- One comparison of the nearest-seed scan: take the candidate exactly when
its squared distance strictly improves on the minimum so far (none plays the
role of the initial Infinity). -/
def nearestStep (seeds : List Seed) (x y : ℚ) (acc : Option ℚ × ℕ) (i : ℕ) :
    Option ℚ × ℕ :=
  let d := dist2 (seeds.getD i ⟨0, 0⟩) x y
  match acc.1 with
  | none => (some d, i)
  | some m => if d < m then (some d, i) else acc

/-- Nearest-seed selection shared by both rasterizers: scan the given index
list; minDist starts at Infinity (none) and nearestSeed starts at 0, exactly
as in rendering/voronoi.ts. -/
def nearestInList (seeds : List Seed) (x y : ℚ) (idxs : List ℕ) : Option ℚ × ℕ :=
  idxs.foldl (nearestStep seeds x y) (none, 0)

/-- RGBA bytes written for the winning seed index:
(floor(r·255), floor(g·255), floor(b·255), 255). -/
def pixelBytes (colors : List SeedColor) (i : ℕ) : ℤ × ℤ × ℤ × ℤ :=
  let c := colors.getD i ⟨0, 0, 0, 0⟩
  (⌊c.r * 255⌋, ⌊c.g * 255⌋, ⌊c.b * 255⌋, 255)

/-- RGBA bytes the brute-force renderVoronoi writes at pixel (x, y): scan all
seeds in index order. -/
def renderVoronoiPixel (seeds : List Seed) (colors : List SeedColor)
    (x y : ℚ) : ℤ × ℤ × ℤ × ℤ :=
  pixelBytes colors (nearestInList seeds x y (List.range seeds.length)).2

/-- Ceiling of the square root of a natural number: the least k with k² ≥ m.
This is the exact value of Math.ceil(Math.sqrt(q)) composed with the ceiling
division below, since ⌈√q⌉ = ⌈√⌈q⌉⌉ for every real q ≥ 0. -/
def ceilSqrt (m : ℕ) : ℕ :=
  if Nat.sqrt m * Nat.sqrt m = m then Nat.sqrt m else Nat.sqrt m + 1

/-- Ceiling division of naturals. -/
def ceilDiv (a b : ℕ) : ℕ := (a + b - 1) / b

/-- Bucket side of renderVoronoiOptimized:
cellSize = Math.ceil(Math.sqrt(width · height / seeds.length)). -/
def cellSizeOf (width height n : ℕ) : ℕ := ceilSqrt (ceilDiv (width * height) n)

/-- Linear bucket index a seed is stored into by the grid build of
renderVoronoiOptimized (floor-divide by cellSize, clamp each axis from above
to the grid bound, then row-major).  For seeds with negative coordinates the
JS code would index the grid out of range; the claims are settled on
nonnegative coordinates. -/
def seedCellIndex (c gridCols gridRows : ℕ) (s : Seed) : ℤ :=
  let cellY := min ⌊s.y / (c : ℚ)⌋ ((gridRows : ℤ) - 1)
  let cellX := min ⌊s.x / (c : ℚ)⌋ ((gridCols : ℤ) - 1)
  cellY * gridCols + cellX

/-- Contents of one grid bucket: the seed indices stored there, in ascending
order (the build loop pushes indices 0, 1, ... in order). -/
def gridBucket (seeds : List Seed) (c gridCols gridRows : ℕ) (idx : ℤ) : List ℕ :=
  (List.range seeds.length).filter fun i =>
    seedCellIndex c gridCols gridRows (seeds.getD i ⟨0, 0⟩) = idx

/-- Seed indices scanned for pixel (x, y) by renderVoronoiOptimized: buckets
within radius 2 of the pixel's bucket in each axis, in the dy-major scan order
of the source, skipping out-of-bounds buckets. -/
def windowSeeds (seeds : List Seed) (width height : ℕ) (x y : ℚ) : List ℕ :=
  let c := cellSizeOf width height seeds.length
  let gridCols := ceilDiv width c
  let gridRows := ceilDiv height c
  let cellX : ℤ := ⌊x / (c : ℚ)⌋
  let cellY : ℤ := ⌊y / (c : ℚ)⌋
  ((List.range 5).flatMap fun dyi => (List.range 5).map fun dxi =>
      ((dyi : ℤ) - 2, (dxi : ℤ) - 2)).flatMap fun d =>
    let cy := cellY + d.1
    let cx := cellX + d.2
    if cx < 0 ∨ (gridCols : ℤ) ≤ cx ∨ cy < 0 ∨ (gridRows : ℤ) ≤ cy then []
    else gridBucket seeds c gridCols gridRows (cy * gridCols + cx)

/-- RGBA bytes renderVoronoiOptimized writes at pixel (x, y): the same strict
minimum scan, restricted to the radius-2 bucket window. -/
def renderVoronoiOptimizedPixel (seeds : List Seed) (colors : List SeedColor)
    (width height : ℕ) (x y : ℚ) : ℤ × ℤ × ℤ × ℤ :=
  pixelBytes colors (nearestInList seeds x y (windowSeeds seeds width height x y)).2

/-- Clamp from utils/math.ts over the reals of the physics simulation. -/
noncomputable def clampR (value lo hi : ℝ) : ℝ := max lo (min hi value)

/-- Velocity cap of simulation/CellBody.ts. -/
def MAX_VELOCITY : ℝ := 6

/-- Particle state of simulation/CellBody.ts.  Coordinates, velocities,
accelerations and the destination force are embedded as reals; age counts
frames and strokeId tags the drawing stroke (0 when unpainted). -/
structure CellBody where
  srcx : ℝ
  srcy : ℝ
  dstx : ℝ
  dsty : ℝ
  velx : ℝ
  vely : ℝ
  accx : ℝ
  accy : ℝ
  dstForce : ℝ
  age : ℕ
  strokeId : ℕ

/-- CellBody.update (lines 360-377): Euler integration with acceleration
reset, 0.97 velocity damping, velocity clamped to ±MAX_VELOCITY when applied
to the position, and an age increment.  Returns the updated cell and the
updated position. -/
noncomputable def CellBody.update (cb : CellBody) (pos : ℝ × ℝ) : CellBody × (ℝ × ℝ) :=
  let vx := (cb.velx + cb.accx) * 0.97
  let vy := (cb.vely + cb.accy) * 0.97
  ({ cb with velx := vx, vely := vy, accx := 0, accy := 0, age := cb.age + 1 },
   (pos.1 + clampR vx (-MAX_VELOCITY) MAX_VELOCITY,
    pos.2 + clampR vy (-MAX_VELOCITY) MAX_VELOCITY))

/-- CellBody.applyNeighbourForce (lines 392-417): repulsion within the
personal-space radius, returning the weight used for velocity alignment and
stroke attraction.  The dist = 0 branch adds a jitter derived in the source
from the IEEE-754 bit pattern of the position; that bit-level derivation is
not representable over ℝ and is abstracted by the jitter parameter. -/
noncomputable def CellBody.applyNeighbourForce (cb : CellBody) (pos other : ℝ × ℝ)
    (pixelSize : ℝ) (jitter : ℝ × ℝ) : CellBody × ℝ :=
  let dx := other.1 - pos.1
  let dy := other.2 - pos.2
  let dist := Real.sqrt (dx * dx + dy * dy)
  let personalSpace := pixelSize * 0.95
  let weight := if 0 < dist ∧ dist < personalSpace then
      (1 / dist) * ((personalSpace - dist) / personalSpace) else 0
  let cb2 :=
    if 0 < dist ∧ dist < personalSpace then
      { cb with accx := cb.accx - dx * weight, accy := cb.accy - dy * weight }
    else if dist = 0 then
      { cb with accx := cb.accx + (jitter.1 - 0.5) * 0.1,
                accy := cb.accy + (jitter.2 - 0.5) * 0.1 }
    else cb
  (cb2, max 0 weight)

/-- CellBody.applyStrokeAttraction (lines 435-439): pull toward the neighbour,
scaled by the neighbour weight and ALIGNMENT_FACTOR = 0.8. -/
noncomputable def CellBody.applyStrokeAttraction (cb : CellBody) (pos otherCell : ℝ × ℝ)
    (weight : ℝ) : CellBody :=
  { cb with accx := cb.accx + (otherCell.1 - pos.1) * weight * 0.8,
            accy := cb.accy + (otherCell.2 - pos.2) * weight * 0.8 }

/-- The per-neighbour body of Sim.update (lines 218-232) for one pair (i, j):
apply the neighbour force, then apply stroke attraction exactly when the two
cells' strokeIds are equal (the source has no non-zero guard).  Returns the
updated cell i and the weight fed into the alignment sums. -/
noncomputable def neighbourInteract (ci cj : CellBody) (pos posOther : ℝ × ℝ)
    (pixelSize : ℝ) (jitter : ℝ × ℝ) : CellBody × ℝ :=
  let nf := ci.applyNeighbourForce pos posOther pixelSize jitter
  let c2 := if ci.strokeId = cj.strokeId then
      nf.1.applyStrokeAttraction pos posOther nf.2 else nf.1
  (c2, nf.2)

/-- Simulation state of simulation/Sim.ts: the cell array and the reversal
flag. -/
structure Sim where
  cells : List CellBody
  reversed : Bool

/-- The per-cell effect of Sim.switch: exchange source and destination and
reset the age. -/
noncomputable def switchCell (c : CellBody) : CellBody :=
  { c with srcx := c.dstx, dstx := c.srcx, srcy := c.dsty, dsty := c.srcy, age := 0 }

/-- Sim.switch (lines 269-276): swap (src, dst) of every cell, zero the ages,
and toggle the reversed flag. -/
noncomputable def Sim.switch (sim : Sim) : Sim :=
  { cells := sim.cells.map switchCell, reversed := !sim.reversed }

/-- Sim.preparePlay (lines 251-267): when already in the requested direction,
restart from the sources and zero the ages; otherwise write the destinations
into the positions and switch.  Returns the new simulation and the rewritten
positions array (the source mutates the caller's array, which has the same
length as the cell array, in place; the parameter records the signature). -/
noncomputable def Sim.preparePlay (sim : Sim) (_positions : List (ℝ × ℝ))
    (reverse : Bool) : Sim × List (ℝ × ℝ) :=
  if sim.reversed = reverse then
    ({ cells := sim.cells.map fun c => { c with age := 0 }, reversed := sim.reversed },
     sim.cells.map fun c => (c.srcx, c.srcy))
  else
    (sim.switch, sim.cells.map fun c => (c.dstx, c.dsty))

/-- Max search distance of workers/drawing-worker.ts (maxDist, lines 59-61):
round((DRAWING_CANVAS_SIZE / 4) · 0.99 ^ (age / 30)) with the constant
DRAWING_CANVAS_SIZE = 128; Math.round(x) = ⌊x + 1/2⌋ = round x. -/
noncomputable def maxDistDrawing (age : ℤ) : ℤ :=
  round ((128 / 4 : ℝ) * (0.99 : ℝ) ^ ((age : ℝ) / 30))

/-- The claimed max-distance formula, with S the configured sidelen of the
session, for comparison with maxDistDrawing (which the code actually uses). -/
noncomputable def maxDistSpecSide (S : ℕ) (age : ℤ) : ℤ :=
  round (((S : ℝ) / 4) * (0.99 : ℝ) ^ ((age : ℝ) / 30))

/-- Result of sampling one drawing-solver trial pair. -/
structure DrawTrial where
  apos : ℕ
  apt : ℤ × ℤ
  bpt : ℤ × ℤ
  bpos : ℕ
  mA : ℤ
  mB : ℤ
  rejected : Bool
  rngAfter : ℕ

/-- One trial's sampling and rejection logic of the drawing worker
(lines 127-154): sample apos, read maxDist from a's age (age = 0 − lastEdited),
sample b within ±maxDist(age a) of a clamped to [0, S−1] per axis (the
Math.floor around the clamp is the identity on these integer values), then
reject when either axis distance exceeds maxDist(age b). -/
noncomputable def drawingTrial (S : ℕ) (lastEdited : ℕ → ℤ) (rng : ℕ) : DrawTrial :=
  let N := S * S
  let s1 := mulberryNext rng
  let apos := s1.2 * N / 4294967296
  let ax : ℤ := apos % S
  let ay : ℤ := apos / S
  let mA := maxDistDrawing (0 - lastEdited apos)
  let s2 := mulberryNext s1.1
  let bx := min ((S : ℤ) - 1) (max 0 (ax + rngRange s2.2 (-mA) (mA + 1)))
  let s3 := mulberryNext s2.1
  let byv := min ((S : ℤ) - 1) (max 0 (ay + rngRange s3.2 (-mA) (mA + 1)))
  let bpos := (byv * S + bx).toNat
  let mB := maxDistDrawing (0 - lastEdited bpos)
  let rejected := decide (mB < |bx - ax|) || decide (mB < |byv - ay|)
  { apos := apos, apt := (ax, ay), bpt := (bx, byv), bpos := bpos,
    mA := mA, mB := mB, rejected := rejected, rngAfter := s3.1 }

/-- Concrete 2×2 source palette used to exercise the Genetic trial swap. -/
def c2src : List RGB := [(255, 0, 0), (0, 0, 0), (0, 0, 0), (0, 0, 0)]

/-- Concrete 2×2 target palette: position 0 wants black, position 3 wants
near-red, so swapping positions 0 and 3 is accepted. -/
def c2tgt : List RGB := [(0, 0, 0), (0, 0, 0), (0, 0, 0), (254, 0, 0)]

/-- Uniform weights for the 2×2 example, as in the source. -/
def c2w : List ℤ := [255, 255, 255, 255]

/-- Source palette of a second 2×2 genetic board: position 1 holds a color one
step from black, the rest as in c2src. -/
def c1src : List RGB := [(255, 0, 0), (1, 0, 0), (0, 0, 0), (0, 0, 0)]

/-- Target of the second 2×2 board: position 1 wants exactly the color source
pixel 1 has, position 3 wants near-red. -/
def c1tgt : List RGB := [(0, 0, 0), (1, 0, 0), (0, 0, 0), (254, 0, 0)]

/-- A cell at rest with strokeId 0 (the constructor default), used to exercise
the stroke-attraction guard. -/
noncomputable def cellZ : CellBody :=
  { srcx := 0, srcy := 0, dstx := 0, dsty := 0, velx := 0, vely := 0,
    accx := 0, accy := 0, dstForce := 0, age := 0, strokeId := 0 }

/-- Six seeds on a 16×8 board: seed 0 sits inside the radius-2 bucket window
of pixel (0,0) but far from it, seed 1 is nearer but lives in a bucket outside
the window, and the rest are remote. -/
def cseeds : List Seed :=
  [⟨14, 7⟩, ⟨15, 0⟩, ⟨15, 7⟩, ⟨15, 7⟩, ⟨15, 7⟩, ⟨15, 7⟩]

/-- Colors for cseeds: red for seed 0, green for seed 1, blue for the rest. -/
def ccolors : List SeedColor :=
  [⟨1, 0, 0, 1⟩, ⟨0, 1, 0, 1⟩, ⟨0, 0, 1, 1⟩, ⟨0, 0, 1, 1⟩, ⟨0, 0, 1, 1⟩, ⟨0, 0, 1, 1⟩]

/-- Two seeds on a 16×16 board whose unique nearest seed for pixel (0,0) lies
in the scanned window. -/
def wseeds : List Seed := [⟨1, 1⟩, ⟨15, 15⟩]

/-- Colors for wseeds. -/
def wcolors : List SeedColor := [⟨1, 0, 0, 1⟩, ⟨0, 0, 1, 1⟩]

/-- A one-cell simulation in the forward direction, used to instantiate the
preparePlay round trip. -/
noncomputable def simW : Sim :=
  { cells := [{ srcx := 1, srcy := 2, dstx := 3, dsty := 4, velx := 0, vely := 0,
                accx := 0, accy := 0, dstForce := 0.13, age := 5, strokeId := 0 }],
    reversed := false }

/-- C10: CellBody.update moves each position coordinate by at most
MAX_VELOCITY = 6.0 in absolute value, increments age by exactly 1, zeroes both
acceleration components, and leaves srcx, srcy, dstx, dsty, dstForce and
strokeId unchanged. -/
theorem C10_update_frame (cb : CellBody) (pos : ℝ × ℝ) :
    |(cb.update pos).2.1 - pos.1| ≤ MAX_VELOCITY ∧
    |(cb.update pos).2.2 - pos.2| ≤ MAX_VELOCITY ∧
    (cb.update pos).1.age = cb.age + 1 ∧
    (cb.update pos).1.accx = 0 ∧ (cb.update pos).1.accy = 0 ∧
    (cb.update pos).1.srcx = cb.srcx ∧ (cb.update pos).1.srcy = cb.srcy ∧
    (cb.update pos).1.dstx = cb.dstx ∧ (cb.update pos).1.dsty = cb.dsty ∧
    (cb.update pos).1.dstForce = cb.dstForce ∧
    (cb.update pos).1.strokeId = cb.strokeId := by
  have hc : ∀ v : ℝ, |clampR v (-MAX_VELOCITY) MAX_VELOCITY| ≤ MAX_VELOCITY := by
    intro v
    rw [abs_le]
    exact ⟨le_max_left _ _,
      max_le (by norm_num [MAX_VELOCITY]) (min_le_left _ _)⟩
  refine ⟨?_, ?_, rfl, rfl, rfl, rfl, rfl, rfl, rfl, rfl, rfl⟩
  · show |pos.1 + clampR _ _ _ - pos.1| ≤ MAX_VELOCITY
    rw [add_sub_cancel_left]
    exact hc _
  · show |pos.2 + clampR _ _ _ - pos.2| ≤ MAX_VELOCITY
    rw [add_sub_cancel_left]
    exact hc _

/-- C9: starting from any simulation state, preparePlay with r different from
the current reversed flag followed by preparePlay with the negation restores
every cell's (srcx, srcy, dstx, dsty) and the reversed flag. -/
theorem C9_preparePlay_roundtrip (sim : Sim) (positions : List (ℝ × ℝ)) (r : Bool)
    (h : r ≠ sim.reversed) :
    (((sim.preparePlay positions r).1.preparePlay (sim.preparePlay positions r).2
        (!r)).1.reversed = sim.reversed) ∧
    ((sim.preparePlay positions r).1.preparePlay (sim.preparePlay positions r).2
        (!r)).1.cells.map (fun c => (c.srcx, c.srcy, c.dstx, c.dsty)) =
      sim.cells.map fun c => (c.srcx, c.srcy, c.dstx, c.dsty) := by
  have h1 : ¬ (sim.reversed = r) := fun hh => h (hh ▸ rfl)
  have e1 : sim.preparePlay positions r =
      (sim.switch, sim.cells.map fun c => (c.dstx, c.dsty)) := by
    unfold Sim.preparePlay
    rw [if_neg h1]
  have h2 : ¬ ((sim.switch).reversed = !r) := by
    show ¬ ((!sim.reversed) = (!r))
    intro hh
    exact h1 (Bool.not_inj hh)
  have e2 : (sim.switch).preparePlay (sim.cells.map fun c => (c.dstx, c.dsty)) (!r) =
      ((sim.switch).switch, (sim.switch).cells.map fun c => (c.dstx, c.dsty)) := by
    unfold Sim.preparePlay
    rw [if_neg h2]
  rw [e1]
  simp only [e2]
  constructor
  · show (!(!sim.reversed)) = sim.reversed
    exact Bool.not_not _
  · show ((sim.cells.map switchCell).map switchCell).map _ = _
    rw [List.map_map, List.map_map]
    rfl

/-- Concrete instance of C9: the round trip on a one-cell simulation with
reversed = false and r = true. -/
theorem C9_preparePlay_roundtrip_witness :
    ((((simW.preparePlay [(0, 0)] true).1.preparePlay (simW.preparePlay [(0, 0)] true).2
        (!true)).1.reversed = simW.reversed) ∧
    ((simW.preparePlay [(0, 0)] true).1.preparePlay (simW.preparePlay [(0, 0)] true).2
        (!true)).1.cells.map (fun c => (c.srcx, c.srcy, c.dstx, c.dsty)) =
      simW.cells.map fun c => (c.srcx, c.srcy, c.dstx, c.dsty)) :=
  C9_preparePlay_roundtrip simW [(0, 0)] true (by decide)

/-- C6: applyCropScale does not always return a 3·S² buffer: on a 4×2 source
with scale 1 and offsets 0 and target side 2, the computed crop side equals
the target side, so the original 24-byte buffer is returned unchanged even
though 3·S² = 12.  The code's own comment on this branch claims the buffer is
already the correct size. -/
theorem C6_applyCropScale_size_bug :
    (applyCropScale (List.replicate 24 0) 4 2 2 ⟨1, 0, 0⟩ fun _ => 0).length = 24 ∧
    24 ≠ 3 * (2 * 2) := by
  constructor
  · simp only [applyCropScale]
    norm_num
  · decide

/-- C4: the Genetic pipeline is a deterministic function of the settings id,
the source palette, the target, the proximity importance, the side length and
the generation fuel: two runs on identical inputs produce identical
assignments.  The only randomness in the source is the Mulberry32 generator
seeded from hashCode(settings.id), which the model threads explicitly. -/
theorem C4_genetic_deterministic (id1 id2 : List ℕ) (src1 src2 : List RGB)
    (ct1 ct2 : Option (List RGB)) (ws1 ws2 : ℤ) (S1 S2 fuel1 fuel2 : ℕ)
    (hid : id1 = id2) (hsrc : src1 = src2) (hct : ct1 = ct2) (hws : ws1 = ws2)
    (hS : S1 = S2) (hfuel : fuel1 = fuel2) :
    processGeneticModel id1 src1 ct1 ws1 S1 fuel1 =
      processGeneticModel id2 src2 ct2 ws2 S2 fuel2 := by
  subst hid hsrc hct hws hS hfuel
  rfl

/-- Concrete instance of C4 at explicit inputs. -/
theorem C4_genetic_deterministic_witness :
    processGeneticModel [97, 98] c2src none 13 2 0 =
      processGeneticModel [97, 98] c2src none 13 2 0 :=
  C4_genetic_deterministic [97, 98] [97, 98] c2src c2src none none 13 13 2 2 0 0
    rfl rfl rfl rfl rfl rfl

/-- C7 (amended): in the per-neighbour step of Sim.update, stroke attraction
is applied exactly when the two cells' strokeIds are equal — including when
both are 0 — with the weight returned by the neighbour force; it is never
applied when the ids differ. -/
theorem C7_stroke_attraction_iff_equal_ids (ci cj : CellBody) (pos posOther : ℝ × ℝ)
    (pixelSize : ℝ) (jitter : ℝ × ℝ) :
    (ci.strokeId = cj.strokeId →
      neighbourInteract ci cj pos posOther pixelSize jitter =
        (((ci.applyNeighbourForce pos posOther pixelSize jitter).1).applyStrokeAttraction
            pos posOther ((ci.applyNeighbourForce pos posOther pixelSize jitter).2),
         (ci.applyNeighbourForce pos posOther pixelSize jitter).2)) ∧
    (ci.strokeId ≠ cj.strokeId →
      neighbourInteract ci cj pos posOther pixelSize jitter =
        ((ci.applyNeighbourForce pos posOther pixelSize jitter).1,
         (ci.applyNeighbourForce pos posOther pixelSize jitter).2)) := by
  constructor
  · intro hid
    simp only [neighbourInteract, if_pos hid]
  · intro hid
    simp only [neighbourInteract, if_neg hid]

/-- Concrete instance of C7: two cells with equal strokeIds receive the stroke
attraction after the neighbour force. -/
theorem C7_stroke_attraction_witness :
    neighbourInteract cellZ cellZ (0, 0) (3, 4) 10 (0, 0) =
      (((cellZ.applyNeighbourForce (0, 0) (3, 4) 10 (0, 0)).1).applyStrokeAttraction
          (0, 0) (3, 4) ((cellZ.applyNeighbourForce (0, 0) (3, 4) 10 (0, 0)).2),
       (cellZ.applyNeighbourForce (0, 0) (3, 4) 10 (0, 0)).2) :=
  (C7_stroke_attraction_iff_equal_ids cellZ cellZ (0, 0) (3, 4) 10 (0, 0)).1 rfl

/-- C7 as stated is false: a cell with strokeId = 0 does have stroke
attraction applied.  Two resting cells with the default strokeId 0 at distance
5 and pixel size 10 end the neighbour step with a different x-acceleration
than the neighbour force alone produces, because the source compares the ids
without excluding 0. -/
theorem C7_zero_stroke_counterexample :
    cellZ.strokeId = 0 ∧
    (neighbourInteract cellZ cellZ (0, 0) (3, 4) 10 (0, 0)).1.accx ≠
      (cellZ.applyNeighbourForce (0, 0) (3, 4) 10 (0, 0)).1.accx := by
  have hsq : Real.sqrt 25 = 5 := by
    rw [show (25:ℝ) = 5 ^ 2 by norm_num]
    exact Real.sqrt_sq (by norm_num)
  constructor
  · rfl
  · norm_num [neighbourInteract, CellBody.applyNeighbourForce,
      CellBody.applyStrokeAttraction, cellZ, hsq]

/-- The Mulberry32 output numerator is a 32-bit value. -/
theorem xor_shift_lt {x : ℕ} (n : ℕ) (hx : x < 4294967296) :
    Nat.xor x (x >>> n) < 4294967296 := by
  have h32 : (4294967296:ℕ) = 2 ^ 32 := by norm_num
  rw [h32] at hx ⊢
  exact Nat.xor_lt_two_pow hx
    (lt_of_le_of_lt (by rw [Nat.shiftRight_eq_div_pow]; exact Nat.div_le_self _ _) hx)

/-- Every output of mulberryNext is below 2^32, so next() lies in [0, 1). -/
theorem mulberry_out_lt (state : ℕ) : (mulberryNext state).2 < 4294967296 := by
  simp only [mulberryNext]
  apply xor_shift_lt
  have h32 : (4294967296:ℕ) = 2 ^ 32 := by norm_num
  rw [h32]
  exact Nat.xor_lt_two_pow (by rw [← h32]; exact Nat.mod_lt _ (by norm_num))
    (by rw [← h32]; exact Nat.mod_lt _ (by norm_num))

/-- range(lo, hi) lands in [lo, hi) when the output numerator is a 32-bit
value. -/
theorem rngRange_mem (k : ℕ) (hk : k < 4294967296) (lo hi : ℤ) (hlohi : lo < hi) :
    lo ≤ rngRange k lo hi ∧ rngRange k lo hi < hi := by
  unfold rngRange
  have hspan : ((hi - lo).toNat : ℤ) = hi - lo := Int.toNat_of_nonneg (by omega)
  have hdiv : (k * (hi - lo).toNat) / 4294967296 < (hi - lo).toNat := by
    apply Nat.div_lt_of_lt_mul
    have hpos : 0 < (hi - lo).toNat := by omega
    exact (Nat.mul_lt_mul_right hpos).mpr hk
  have hcast : ((k * (hi - lo).toNat / 4294967296 : ℕ) : ℤ) < hi - lo := by
    calc ((k * (hi - lo).toNat / 4294967296 : ℕ) : ℤ) < ((hi - lo).toNat : ℤ) := by
          exact_mod_cast hdiv
      _ = hi - lo := hspan
  have h0 : (0:ℤ) ≤ ((k * (hi - lo).toNat / 4294967296 : ℕ) : ℤ) := Int.natCast_nonneg _
  omega

/-- The drawing max distance is never negative. -/
theorem maxDistDrawing_nonneg (age : ℤ) : 0 ≤ maxDistDrawing age := by
  unfold maxDistDrawing
  have hp : (0:ℝ) < (128 / 4 : ℝ) * (0.99 : ℝ) ^ ((age : ℝ) / 30) :=
    mul_pos (by norm_num) (Real.rpow_pos_of_pos (by norm_num) _)
  rw [round_eq]
  exact Int.floor_nonneg.mpr (by linarith)

/-- A value sampled within ±m of a and clamped into [0, SI] stays within ±m of
a when a itself lies in [0, SI]. -/
theorem clamp_abs_le (a d m SI : ℤ) (ha0 : 0 ≤ a) (haS : a ≤ SI)
    (hd1 : -m ≤ d) (hd2 : d ≤ m) :
    |min SI (max 0 (a + d)) - a| ≤ m := by
  rw [abs_le, min_def, max_def]
  split_ifs <;> omega

/-- A coordinate sampled by rngRange within ±m and clamped to the board stays
within ±m of the anchor. -/
theorem drawClamp_bound (S : ℕ) (a : ℤ) (ha0 : 0 ≤ a) (haS : a ≤ (S : ℤ) - 1)
    (m : ℤ) (hm : 0 ≤ m) (k : ℕ) (hk : k < 4294967296) :
    |min ((S : ℤ) - 1) (max 0 (a + rngRange k (-m) (m + 1))) - a| ≤ m := by
  obtain ⟨h1, h2⟩ := rngRange_mem k hk (-m) (m + 1) (by omega)
  exact clamp_abs_le a _ m _ ha0 haS h1 (by omega)

/-- C8 (amended): in every drawing-solver trial, b is sampled within
±maxDist(age(a)) of a in each axis, and the pair is rejected exactly when
|bx−ax| > maxDist(age(b)) or |by−ay| > maxDist(age(b)), where the code's
maxDist(age) = round((DRAWING_CANVAS_SIZE/4)·0.99^(age/30)) with the constant
DRAWING_CANVAS_SIZE = 128; this agrees with the claimed formula
round((S/4)·0.99^(age/30)) exactly when the session sidelen S is 128. -/
theorem C8_drawing_sampling (S : ℕ) (lastEdited : ℕ → ℤ) (rng : ℕ) (hS : 0 < S) :
    (|(drawingTrial S lastEdited rng).bpt.1 - (drawingTrial S lastEdited rng).apt.1| ≤
        (drawingTrial S lastEdited rng).mA ∧
     |(drawingTrial S lastEdited rng).bpt.2 - (drawingTrial S lastEdited rng).apt.2| ≤
        (drawingTrial S lastEdited rng).mA) ∧
    ((drawingTrial S lastEdited rng).rejected = true ↔
      ((drawingTrial S lastEdited rng).mB <
          |(drawingTrial S lastEdited rng).bpt.1 - (drawingTrial S lastEdited rng).apt.1| ∨
       (drawingTrial S lastEdited rng).mB <
          |(drawingTrial S lastEdited rng).bpt.2 - (drawingTrial S lastEdited rng).apt.2|)) ∧
    (drawingTrial S lastEdited rng).mA =
      maxDistDrawing (0 - lastEdited (drawingTrial S lastEdited rng).apos) ∧
    (∀ age : ℤ, maxDistDrawing age = maxDistSpecSide 128 age) := by
  have hS0 : ((S : ℤ)) ≠ 0 := by exact_mod_cast hS.ne'
  have hSpos : (0 : ℤ) < (S : ℤ) := by exact_mod_cast hS
  have hap : (mulberryNext rng).2 * (S * S) / 4294967296 < S * S :=
    Nat.div_lt_of_lt_mul
      ((Nat.mul_lt_mul_right (Nat.mul_pos hS hS)).mpr (mulberry_out_lt rng))
  refine ⟨⟨?_, ?_⟩, ?_, rfl, ?_⟩
  · simp only [drawingTrial]
    apply drawClamp_bound
    · exact Int.emod_nonneg _ hS0
    · have := Int.emod_lt_of_pos
        (((mulberryNext rng).2 * (S * S) / 4294967296 : ℕ) : ℤ) hSpos
      omega
    · exact maxDistDrawing_nonneg _
    · exact mulberry_out_lt _
  · simp only [drawingTrial]
    apply drawClamp_bound
    · exact Int.ediv_nonneg (Int.natCast_nonneg _) (Int.natCast_nonneg _)
    · have hcast : (((mulberryNext rng).2 * (S * S) / 4294967296 : ℕ) : ℤ) <
          (S : ℤ) * (S : ℤ) := by exact_mod_cast hap
      have := (Int.ediv_lt_iff_lt_mul hSpos).mpr hcast
      omega
    · exact maxDistDrawing_nonneg _
    · exact mulberry_out_lt _
  · simp only [drawingTrial, Bool.or_eq_true, decide_eq_true_eq]
  · intro age
    unfold maxDistDrawing maxDistSpecSide
    norm_num

/-- Concrete instance of C8 at sidelen 128 with all ages 0. -/
theorem C8_drawing_sampling_witness :
    (|(drawingTrial 128 (fun _ => 0) 12345).bpt.1 -
        (drawingTrial 128 (fun _ => 0) 12345).apt.1| ≤
        (drawingTrial 128 (fun _ => 0) 12345).mA ∧
     |(drawingTrial 128 (fun _ => 0) 12345).bpt.2 -
        (drawingTrial 128 (fun _ => 0) 12345).apt.2| ≤
        (drawingTrial 128 (fun _ => 0) 12345).mA) ∧
    ((drawingTrial 128 (fun _ => 0) 12345).rejected = true ↔
      ((drawingTrial 128 (fun _ => 0) 12345).mB <
          |(drawingTrial 128 (fun _ => 0) 12345).bpt.1 -
            (drawingTrial 128 (fun _ => 0) 12345).apt.1| ∨
       (drawingTrial 128 (fun _ => 0) 12345).mB <
          |(drawingTrial 128 (fun _ => 0) 12345).bpt.2 -
            (drawingTrial 128 (fun _ => 0) 12345).apt.2|)) ∧
    ((drawingTrial 128 (fun _ => 0) 12345).mA =
      maxDistDrawing (0 - (fun _ => (0:ℤ)) (drawingTrial 128 (fun _ => 0) 12345).apos)) ∧
    (∀ age : ℤ, maxDistDrawing age = maxDistSpecSide 128 age) :=
  C8_drawing_sampling 128 (fun _ => 0) 12345 (by decide)

/-- C8 as stated is false for a session whose sidelen is not 128: with
sidelen 256 and every age 0, the code's search radius is
round(32 · 0.99^0) = 32, while the claimed formula round((S/4) · 0.99^0)
gives 64. -/
theorem C8_sidelen_counterexample :
    (drawingTrial 256 (fun _ => 0) 0).mA = 32 ∧
    maxDistSpecSide 256 0 = 64 ∧
    (drawingTrial 256 (fun _ => 0) 0).mA ≠ maxDistSpecSide 256 0 := by
  have h1 : (drawingTrial 256 (fun _ => 0) 0).mA = maxDistDrawing 0 := rfl
  have h2 : maxDistDrawing 0 = 32 := by
    unfold maxDistDrawing
    rw [show ((0:ℤ):ℝ) / 30 = (0:ℝ) by norm_num, Real.rpow_zero]
    rw [show (128/4:ℝ) * 1 = ((32:ℤ):ℝ) by norm_num, round_intCast]
  have h3 : maxDistSpecSide 256 0 = 64 := by
    unfold maxDistSpecSide
    rw [show ((0:ℤ):ℝ) / 30 = (0:ℝ) by norm_num, Real.rpow_zero]
    rw [show (((256:ℕ)):ℝ) / 4 * 1 = ((64:ℤ):ℝ) by norm_num, round_intCast]
  refine ⟨h1.trans h2, h3, ?_⟩
  rw [h1, h2, h3]
  decide

/-- C2 fails on the code: in the accepted swap of positions 0 and 3 on the
2×2 example, the solver stores at position 0 the trial heuristic of the pixel
that moved away to position 3 (aOnBH = 931), not the heuristic of the pixel
now stored at position 0 (bOnAH = 676; its zero-spatial heuristic at position
0 is 0).  The two stored h values are written crossed, so the stated invariant
is broken immediately after the first accepted swap. -/
theorem C2_stored_h_crossed :
    ((geneticTrialAt c2tgt c2w 13 2 (geneticInit c2src c2tgt c2w 13 2) 0 3).2 = true) ∧
    (((geneticTrialAt c2tgt c2w 13 2 (geneticInit c2src c2tgt c2w 13 2) 0 3).1.getD 0
        gpix0).h = 931) ∧
    (aPlacedAtB c2tgt c2w 13 2 (geneticInit c2src c2tgt c2w 13 2) 0 3 = 931) ∧
    (bPlacedAtA c2tgt c2w 13 2 (geneticInit c2src c2tgt c2w 13 2) 0 3 = 676) ∧
    (heuristic (0, 0) (0, 0)
        ((geneticTrialAt c2tgt c2w 13 2 (geneticInit c2src c2tgt c2w 13 2) 0 3).1.getD 0
          gpix0).rgb (c2tgt.getD 0 (0, 0, 0)) (c2w.getD 0 0) 13 = 0) ∧
    ((931 : ℤ) ≠ 676 ∧ (931 : ℤ) ≠ 0) := by
  decide

/-- Setting an element of a list preserves getD at the same index. -/
theorem getD_set_self {α : Type} (l : List α) (i : ℕ) (x d : α) (hi : i < l.length) :
    (l.set i x).getD i d = x := by
  rw [List.getD_eq_getElem _ _ (by simpa using hi)]
  simp

/-- Setting an element of a list leaves getD at other indices unchanged. -/
theorem getD_set_ne {α : Type} (l : List α) (i j : ℕ) (x d : α) (hij : i ≠ j) :
    (l.set i x).getD j d = l.getD j d := by
  by_cases hj : j < l.length
  · rw [List.getD_eq_getElem _ _ (by simpa using hj), List.getD_eq_getElem _ _ hj]
    simp [hij]
  · rw [List.getD_eq_default _ _ (by simpa using Nat.le_of_not_lt hj),
      List.getD_eq_default _ _ (Nat.le_of_not_lt hj)]

/-- Replacing the i-th element changes an integer list's sum by the
difference of the two elements. -/
theorem sumZ_set (L : List ℤ) (i : ℕ) (x : ℤ) (hi : i < L.length) :
    (L.set i x).sum + L.getD i 0 = L.sum + x := by
  induction L generalizing i with
  | nil => simp at hi
  | cons a t ih =>
    cases i with
    | zero =>
      simp only [List.set, List.sum_cons, List.getD_cons_zero]
      omega
    | succ j =>
      have hj : j < t.length := by simpa using hi
      simp only [List.set, List.sum_cons, List.getD_cons_succ]
      have := ih j hj
      omega

/-- Replacing the i-th pixel changes the stored-h sum by the difference of
the two h values. -/
theorem sumH_set (l : List GPixel) (i : ℕ) (p : GPixel) (hi : i < l.length) :
    sumH (l.set i p) + (l.getD i gpix0).h = sumH l + p.h := by
  unfold sumH
  rw [List.map_set]
  have hg : (l.map GPixel.h).getD i 0 = (l.getD i gpix0).h := by
    rw [List.getD_eq_getElem _ _ (by simpa using hi), List.getD_eq_getElem _ _ hi]
    simp
  rw [← hg]
  exact sumZ_set (l.map GPixel.h) i p.h (by simpa using hi)

/-- hSet rewritten as a plain set once the current element is known. -/
theorem hSet_eq_set (l : List GPixel) (i : ℕ) (v : ℤ) (q : GPixel)
    (hq : l.getD i gpix0 = q) :
    hSet l i v = l.set i { q with h := v } := by
  unfold hSet
  rw [hq]

/-- Stored-h sum after the source's swap-and-cross-update at distinct
positions: the old h values at a and b leave the sum and the two trial values
enter it. -/
theorem sum_swap_cross_ne (ps : List GPixel) (a b : ℕ) (ha : a < ps.length)
    (hb : b < ps.length) (hab : a ≠ b) (A B : ℤ) :
    sumH (hSet (hSet ((ps.set a (ps.getD b gpix0)).set b (ps.getD a gpix0)) a A) b B) +
      ((ps.getD a gpix0).h + (ps.getD b gpix0).h) = sumH ps + (A + B) := by
  have hp1a : ((ps.set a (ps.getD b gpix0)).set b (ps.getD a gpix0)).getD a gpix0 =
      ps.getD b gpix0 := by
    rw [getD_set_ne _ b a _ gpix0 (Ne.symm hab), getD_set_self _ a _ gpix0 ha]
  have hXb : ((ps.set a (ps.getD b gpix0)).set b (ps.getD a gpix0)).getD b gpix0 =
      ps.getD a gpix0 :=
    getD_set_self _ b _ gpix0 (by simpa using hb)
  rw [hSet_eq_set _ _ _ _ hp1a]
  have hp2b : (((ps.set a (ps.getD b gpix0)).set b (ps.getD a gpix0)).set a
      { ps.getD b gpix0 with h := A }).getD b gpix0 = ps.getD a gpix0 := by
    rw [getD_set_ne _ a b _ gpix0 hab]
    exact hXb
  rw [hSet_eq_set _ _ _ _ hp2b]
  have s1 := sumH_set ps a (ps.getD b gpix0) ha
  have s2 := sumH_set (ps.set a (ps.getD b gpix0)) b (ps.getD a gpix0) (by simpa using hb)
  rw [getD_set_ne _ a b _ gpix0 hab] at s2
  have s3 := sumH_set ((ps.set a (ps.getD b gpix0)).set b (ps.getD a gpix0)) a
    ({ ps.getD b gpix0 with h := A }) (by simpa using ha)
  rw [hp1a] at s3
  have s4 := sumH_set (((ps.set a (ps.getD b gpix0)).set b (ps.getD a gpix0)).set a
    { ps.getD b gpix0 with h := A }) b ({ ps.getD a gpix0 with h := B })
    (by simpa using hb)
  rw [hp2b] at s4
  dsimp only at s1 s2 s3 s4 ⊢
  omega

/-- Stored-h sum after the swap-and-cross-update when both positions
coincide: only the second written value survives. -/
theorem sum_swap_cross_eq (ps : List GPixel) (a : ℕ) (ha : a < ps.length) (A B : ℤ) :
    sumH (hSet (hSet ((ps.set a (ps.getD a gpix0)).set a (ps.getD a gpix0)) a A) a B) +
      (ps.getD a gpix0).h = sumH ps + B := by
  have hp1a : ((ps.set a (ps.getD a gpix0)).set a (ps.getD a gpix0)).getD a gpix0 =
      ps.getD a gpix0 :=
    getD_set_self _ a _ gpix0 (by simpa using ha)
  rw [hSet_eq_set _ _ _ _ hp1a]
  have hp2a : (((ps.set a (ps.getD a gpix0)).set a (ps.getD a gpix0)).set a
      { ps.getD a gpix0 with h := A }).getD a gpix0 = { ps.getD a gpix0 with h := A } :=
    getD_set_self _ a _ gpix0 (by simpa using ha)
  rw [hSet_eq_set _ _ _ _ hp2a]
  have s1 := sumH_set ps a (ps.getD a gpix0) ha
  have s2 := sumH_set (ps.set a (ps.getD a gpix0)) a (ps.getD a gpix0) (by simpa using ha)
  rw [getD_set_self _ a _ gpix0 ha] at s2
  have s3 := sumH_set ((ps.set a (ps.getD a gpix0)).set a (ps.getD a gpix0)) a
    ({ ps.getD a gpix0 with h := A }) (by simpa using ha)
  rw [hp1a] at s3
  have s4 := sumH_set (((ps.set a (ps.getD a gpix0)).set a (ps.getD a gpix0)).set a
    { ps.getD a gpix0 with h := A }) a ({ { ps.getD a gpix0 with h := A } with h := B })
    (by simpa using ha)
  rw [hp2a] at s4
  dsimp only at s1 s2 s3 s4 ⊢
  omega

/-- The trial as an explicit case split on the acceptance condition. -/
theorem geneticTrialAt_cases (tgt : List RGB) (w : List ℤ) (ws : ℤ) (S : ℕ)
    (ps : List GPixel) (a b : ℕ) :
    geneticTrialAt tgt w ws S ps a b =
      if (ps.getD a gpix0).h - bPlacedAtA tgt w ws S ps a b +
          ((ps.getD b gpix0).h - aPlacedAtB tgt w ws S ps a b) > 0 then
        (hSet (hSet ((ps.set a (ps.getD b gpix0)).set b (ps.getD a gpix0)) a
          (aPlacedAtB tgt w ws S ps a b)) b (bPlacedAtA tgt w ws S ps a b), true)
      else (ps, false) :=
  rfl

/-- A trial never changes the length of the pixel array. -/
theorem trialAt_length (tgt : List RGB) (w : List ℤ) (ws : ℤ) (S : ℕ)
    (ps : List GPixel) (a b : ℕ) :
    (geneticTrialAt tgt w ws S ps a b).1.length = ps.length := by
  rw [geneticTrialAt_cases]
  split_ifs <;> simp [hSet]

/-- A trial is accepted exactly when the claimed improvement expression
(h[a] − h at the would-be placement at b) + (h[b] − h at the would-be
placement at a) is positive; this is the source's condition with the
subtractions regrouped. -/
theorem trialAt_accept_iff (tgt : List RGB) (w : List ℤ) (ws : ℤ) (S : ℕ)
    (ps : List GPixel) (a b : ℕ) :
    (geneticTrialAt tgt w ws S ps a b).2 = true ↔
      (ps.getD a gpix0).h - aPlacedAtB tgt w ws S ps a b +
        ((ps.getD b gpix0).h - bPlacedAtA tgt w ws S ps a b) > 0 := by
  rw [geneticTrialAt_cases]
  split_ifs with hacc
  · dsimp only
    exact ⟨fun _ => by omega, fun _ => rfl⟩
  · constructor
    · intro h
      exact absurd h (by simp)
    · intro hcl
      exact (hacc (by omega)).elim

/-- The stored-h sum never increases at a trial, and strictly decreases at an
accepted swap. -/
theorem trialAt_sum_le (tgt : List RGB) (w : List ℤ) (ws : ℤ) (S : ℕ)
    (ps : List GPixel) (a b : ℕ) (ha : a < ps.length) (hb : b < ps.length) :
    sumH (geneticTrialAt tgt w ws S ps a b).1 ≤ sumH ps ∧
    ((geneticTrialAt tgt w ws S ps a b).2 = true →
      sumH (geneticTrialAt tgt w ws S ps a b).1 < sumH ps) := by
  rw [geneticTrialAt_cases]
  split_ifs with hacc
  · dsimp only
    by_cases hab : a = b
    · subst hab
      have hs := sum_swap_cross_eq ps a ha (aPlacedAtB tgt w ws S ps a a)
        (bPlacedAtA tgt w ws S ps a a)
      have hAB : aPlacedAtB tgt w ws S ps a a = bPlacedAtA tgt w ws S ps a a := rfl
      constructor
      · omega
      · intro _
        omega
    · have hs := sum_swap_cross_ne ps a b ha hb hab (aPlacedAtB tgt w ws S ps a b)
        (bPlacedAtA tgt w ws S ps a b)
      constructor
      · omega
      · intro _
        omega
  · dsimp only
    exact ⟨le_rfl, fun h => by simp at h⟩

/-- Clamping into [0, S−1] produces a value in [0, S−1]. -/
theorem clampI_bounds (v : ℤ) (S : ℕ) (hS : 0 < S) :
    0 ≤ clampI v 0 ((S : ℤ) - 1) ∧ clampI v 0 ((S : ℤ) - 1) ≤ (S : ℤ) - 1 := by
  unfold clampI
  have h1 : (1 : ℤ) ≤ (S : ℤ) := by exact_mod_cast hS
  exact ⟨le_max_left 0 _, max_le (by omega) (min_le_left _ _)⟩

/-- The linear index by·S + bx stays below S² for clamped coordinates. -/
theorem bpos_lt (S : ℕ) (x y : ℤ)
    (hx0 : 0 ≤ x) (hx1 : x ≤ (S : ℤ) - 1) (_hy0 : 0 ≤ y) (hy1 : y ≤ (S : ℤ) - 1) :
    y.toNat * S + x.toNat < S * S := by
  have hxN : x.toNat < S := by omega
  have hyN : y.toNat + 1 ≤ S := by omega
  calc y.toNat * S + x.toNat < y.toNat * S + S := by omega
    _ = (y.toNat + 1) * S := by ring
    _ ≤ S * S := Nat.mul_le_mul_right S hyN

/-- One rng-driven trial preserves the array length and never increases the
stored-h sum. -/
theorem trialStep_inv (tgt : List RGB) (w : List ℤ) (ws : ℤ) (S : ℕ)
    (st : GenState) (hS : 0 < S) (hlen : st.ps.length = S * S) :
    (geneticTrialStep tgt w ws S st).1.ps.length = S * S ∧
    sumH (geneticTrialStep tgt w ws S st).1.ps ≤ sumH st.ps := by
  have hN : 0 < st.ps.length := by
    rw [hlen]
    exact Nat.mul_pos hS hS
  have hapos : (mulberryNext st.rng).2 * st.ps.length / 4294967296 < st.ps.length :=
    Nat.div_lt_of_lt_mul ((Nat.mul_lt_mul_right hN).mpr (mulberry_out_lt st.rng))
  constructor
  · show (geneticTrialAt tgt w ws S st.ps _ _).1.length = S * S
    rw [trialAt_length]
    exact hlen
  · show sumH (geneticTrialAt tgt w ws S st.ps _ _).1 ≤ sumH st.ps
    refine (trialAt_sum_le tgt w ws S st.ps _ _ hapos ?_).1
    rw [hlen]
    exact bpos_lt S _ _ (clampI_bounds _ S hS).1 (clampI_bounds _ S hS).2
      (clampI_bounds _ S hS).1 (clampI_bounds _ S hS).2

/-- Any number of rng-driven trials preserves the length and never increases
the stored-h sum. -/
theorem trials_inv (tgt : List RGB) (w : List ℤ) (ws : ℤ) (S : ℕ) (hS : 0 < S) :
    ∀ (n : ℕ) (st : GenState), st.ps.length = S * S →
    (geneticTrials tgt w ws S n st).1.ps.length = S * S ∧
    sumH (geneticTrials tgt w ws S n st).1.ps ≤ sumH st.ps := by
  intro n
  induction n with
  | zero => exact fun st h => ⟨h, le_rfl⟩
  | succ m ih =>
    intro st hlen
    have hstep := trialStep_inv tgt w ws S st hS hlen
    have hrec := ih (geneticTrialStep tgt w ws S st).1 hstep.1
    simp only [geneticTrials]
    exact ⟨hrec.1, le_trans hrec.2 hstep.2⟩

/-- C1 (amended): a Genetic trial swap of positions a and b is accepted
exactly when (h[a] − h placed-at-b) + (h[b] − h placed-at-a) > 0 computed from
the stored h fields, the stored-h sum never increases at a trial and strictly
decreases at an accepted swap, and hence the stored-h sum is non-increasing
across any run of trials.  The recomputed owner-heuristic sum does not obey
this monotonicity (see the counterexample below): the crossed h writes let it
strictly increase at an accepted swap. -/
theorem C1_swap_acceptance_monotone :
    (∀ (tgt : List RGB) (w : List ℤ) (ws : ℤ) (S : ℕ) (ps : List GPixel) (a b : ℕ),
      a < ps.length → b < ps.length →
      (((geneticTrialAt tgt w ws S ps a b).2 = true ↔
        (ps.getD a gpix0).h - aPlacedAtB tgt w ws S ps a b +
          ((ps.getD b gpix0).h - bPlacedAtA tgt w ws S ps a b) > 0) ∧
       sumH (geneticTrialAt tgt w ws S ps a b).1 ≤ sumH ps ∧
       ((geneticTrialAt tgt w ws S ps a b).2 = true →
        sumH (geneticTrialAt tgt w ws S ps a b).1 < sumH ps))) ∧
    (∀ (tgt : List RGB) (w : List ℤ) (ws : ℤ) (S : ℕ) (n : ℕ) (st : GenState),
      0 < S → st.ps.length = S * S →
      sumH (geneticTrials tgt w ws S n st).1.ps ≤ sumH st.ps) := by
  constructor
  · intro tgt w ws S ps a b ha hb
    exact ⟨trialAt_accept_iff tgt w ws S ps a b,
      (trialAt_sum_le tgt w ws S ps a b ha hb).1,
      (trialAt_sum_le tgt w ws S ps a b ha hb).2⟩
  · intro tgt w ws S n st hS hlen
    exact (trials_inv tgt w ws S hS n st hlen).2

/-- Concrete instance of C1 on the 2×2 example: the trial of positions 0 and 3
does not increase the stored-h sum. -/
theorem C1_swap_acceptance_monotone_witness :
    sumH (geneticTrialAt c2tgt c2w 13 2 (geneticInit c2src c2tgt c2w 13 2) 0 3).1 ≤
      sumH (geneticInit c2src c2tgt c2w 13 2) :=
  (C1_swap_acceptance_monotone.1 c2tgt c2w 13 2 (geneticInit c2src c2tgt c2w 13 2) 0 3
    (by decide) (by decide)).2.1

/-- The unamended monotonicity fails for the sum of recomputed owner
heuristics: on the c1src/c1tgt board, the trial (0,3) is accepted, and the
following trial (0,1) is also accepted — its improvement test reads the
crossed stored value h[0] = 931, the trial heuristic of the pixel that left
position 0 — yet the sum of the owners' heuristics at their positions rises
from 255 to 765 at that accepted swap. -/
theorem C1_owner_sum_counterexample :
    (geneticTrialAt c1tgt c2w 13 2 (geneticInit c1src c1tgt c2w 13 2) 0 3).2 = true ∧
    (geneticTrialAt c1tgt c2w 13 2
        (geneticTrialAt c1tgt c2w 13 2 (geneticInit c1src c1tgt c2w 13 2) 0 3).1
        0 1).2 = true ∧
    ownerHeuristicSum c1tgt c2w 13 2
        (geneticTrialAt c1tgt c2w 13 2 (geneticInit c1src c1tgt c2w 13 2) 0 3).1 = 255 ∧
    ownerHeuristicSum c1tgt c2w 13 2
        (geneticTrialAt c1tgt c2w 13 2
          (geneticTrialAt c1tgt c2w 13 2 (geneticInit c1src c1tgt c2w 13 2) 0 3).1
          0 1).1 = 765 := by
  decide

/-- Setting an element shifts the count of each value by the indicator
difference of the outgoing and incoming elements. -/
theorem count_set_nat (L : List ℕ) (i : ℕ) (x c : ℕ) (hi : i < L.length) :
    (L.set i x).count c + (if L.getD i 0 = c then 1 else 0) =
      L.count c + (if x = c then 1 else 0) := by
  induction L generalizing i with
  | nil => simp at hi
  | cons a t ih =>
    cases i with
    | zero =>
      simp only [List.set, List.count_cons, List.getD_cons_zero, beq_iff_eq]
      split_ifs <;> omega
    | succ j =>
      have hj : j < t.length := by simpa using hi
      simp only [List.set, List.count_cons, List.getD_cons_succ, beq_iff_eq]
      have := ih j hj
      split_ifs at this ⊢ <;> omega

/-- Writing back the element already stored at an index is the identity. -/
theorem set_getD_eq_self {α : Type} (l : List α) (i : ℕ) (d : α) (hi : i < l.length) :
    l.set i (l.getD i d) = l := by
  apply List.ext_getElem (by simp)
  intro j h1 h2
  rw [List.getElem_set]
  split_ifs with hij
  · subst hij
    rw [List.getD_eq_getElem _ _ hi]
  · rfl

/-- Exchanging two elements of a list of naturals is a permutation. -/
theorem swap_set_perm (L : List ℕ) (a b : ℕ) (ha : a < L.length) (hb : b < L.length) :
    ((L.set a (L.getD b 0)).set b (L.getD a 0)).Perm L := by
  rw [List.perm_iff_count]
  intro c
  have h1 := count_set_nat L a (L.getD b 0) c ha
  have h2 := count_set_nat (L.set a (L.getD b 0)) b (L.getD a 0) c (by simpa using hb)
  have hg : (L.set a (L.getD b 0)).getD b 0 = L.getD b 0 := by
    by_cases hab : a = b
    · subst hab
      exact getD_set_self L a _ 0 ha
    · exact getD_set_ne L a b _ 0 hab
  rw [hg] at h2
  split_ifs at h1 h2 <;> omega

/-- The assignments list has the same length as the pixel array. -/
theorem assignmentsOf_length (S : ℕ) (ps : List GPixel) :
    (assignmentsOf S ps).length = ps.length := by
  simp [assignmentsOf]

/-- Setting a pixel sets the corresponding assignment entry. -/
theorem assignmentsOf_set (S : ℕ) (ps : List GPixel) (i : ℕ) (p : GPixel) :
    assignmentsOf S (ps.set i p) = (assignmentsOf S ps).set i (p.srcY * S + p.srcX) := by
  simp [assignmentsOf]

/-- Reading an assignment entry reads the corresponding pixel. -/
theorem assignmentsOf_getD (S : ℕ) (ps : List GPixel) (i : ℕ) (hi : i < ps.length) :
    (assignmentsOf S ps).getD i 0 =
      (ps.getD i gpix0).srcY * S + (ps.getD i gpix0).srcX := by
  unfold assignmentsOf
  rw [List.getD_eq_getElem _ _ (by simpa using hi), List.getD_eq_getElem _ _ hi]
  simp

/-- A trial swap permutes the assignments list. -/
theorem assignments_trialAt_perm (tgt : List RGB) (w : List ℤ) (ws : ℤ) (S : ℕ)
    (ps : List GPixel) (a b : ℕ) (ha : a < ps.length) (hb : b < ps.length) :
    (assignmentsOf S (geneticTrialAt tgt w ws S ps a b).1).Perm (assignmentsOf S ps) := by
  rw [geneticTrialAt_cases]
  split_ifs with hacc
  · dsimp only
    by_cases hab : a = b
    · subst hab
      have hp1a : ((ps.set a (ps.getD a gpix0)).set a (ps.getD a gpix0)).getD a gpix0 =
          ps.getD a gpix0 :=
        getD_set_self _ a _ gpix0 (by simpa using ha)
      rw [hSet_eq_set _ _ _ _ hp1a]
      have hp2a : (((ps.set a (ps.getD a gpix0)).set a (ps.getD a gpix0)).set a
          { ps.getD a gpix0 with h := aPlacedAtB tgt w ws S ps a a }).getD a gpix0 =
          { ps.getD a gpix0 with h := aPlacedAtB tgt w ws S ps a a } :=
        getD_set_self _ a _ gpix0 (by simpa using ha)
      rw [hSet_eq_set _ _ _ _ hp2a]
      rw [List.set_set, List.set_set, List.set_set]
      rw [assignmentsOf_set]
      have hself := set_getD_eq_self (assignmentsOf S ps) a 0
        (by rw [assignmentsOf_length]; exact ha)
      rw [assignmentsOf_getD S ps a ha] at hself
      dsimp only
      rw [hself]
    · have hba : b ≠ a := Ne.symm hab
      have hp1a : ((ps.set a (ps.getD b gpix0)).set b (ps.getD a gpix0)).getD a gpix0 =
          ps.getD b gpix0 := by
        rw [getD_set_ne _ b a _ gpix0 hba, getD_set_self _ a _ gpix0 ha]
      rw [hSet_eq_set _ _ _ _ hp1a]
      have hp2b : (((ps.set a (ps.getD b gpix0)).set b (ps.getD a gpix0)).set a
          { ps.getD b gpix0 with h := aPlacedAtB tgt w ws S ps a b }).getD b gpix0 =
          ps.getD a gpix0 := by
        rw [getD_set_ne _ a b _ gpix0 hab,
          getD_set_self _ b _ gpix0 (by simpa using hb)]
      rw [hSet_eq_set _ _ _ _ hp2b]
      rw [List.set_comm _ _ _ hba, List.set_set, List.set_set]
      rw [assignmentsOf_set, assignmentsOf_set]
      have hA := assignmentsOf_getD S ps a ha
      have hB := assignmentsOf_getD S ps b hb
      dsimp only
      rw [← hB, ← hA]
      exact swap_set_perm (assignmentsOf S ps) a b
        (by rw [assignmentsOf_length]; exact ha)
        (by rw [assignmentsOf_length]; exact hb)
  · exact List.Perm.refl _

/-- One rng-driven trial permutes the assignments list. -/
theorem trialStep_perm (tgt : List RGB) (w : List ℤ) (ws : ℤ) (S : ℕ)
    (st : GenState) (hS : 0 < S) (hlen : st.ps.length = S * S) :
    (assignmentsOf S (geneticTrialStep tgt w ws S st).1.ps).Perm
      (assignmentsOf S st.ps) := by
  have hN : 0 < st.ps.length := by
    rw [hlen]
    exact Nat.mul_pos hS hS
  have hapos : (mulberryNext st.rng).2 * st.ps.length / 4294967296 < st.ps.length :=
    Nat.div_lt_of_lt_mul ((Nat.mul_lt_mul_right hN).mpr (mulberry_out_lt st.rng))
  show (assignmentsOf S (geneticTrialAt tgt w ws S st.ps _ _).1).Perm
    (assignmentsOf S st.ps)
  refine assignments_trialAt_perm tgt w ws S st.ps _ _ hapos ?_
  rw [hlen]
  exact bpos_lt S _ _ (clampI_bounds _ S hS).1 (clampI_bounds _ S hS).2
    (clampI_bounds _ S hS).1 (clampI_bounds _ S hS).2

/-- Any number of rng-driven trials permutes the assignments list. -/
theorem trials_perm (tgt : List RGB) (w : List ℤ) (ws : ℤ) (S : ℕ) (hS : 0 < S) :
    ∀ (n : ℕ) (st : GenState), st.ps.length = S * S →
    (assignmentsOf S (geneticTrials tgt w ws S n st).1.ps).Perm
      (assignmentsOf S st.ps) := by
  intro n
  induction n with
  | zero => exact fun st _ => List.Perm.refl _
  | succ m ih =>
    intro st hlen
    have hstep := trialStep_inv tgt w ws S st hS hlen
    have hrec := ih (geneticTrialStep tgt w ws S st).1 hstep.1
    simp only [geneticTrials]
    exact hrec.trans (trialStep_perm tgt w ws S st hS hlen)

/-- The outer loop preserves the array length and permutes the assignments. -/
theorem loop_perm (tgt : List RGB) (w : List ℤ) (ws : ℤ) (S : ℕ) (hS : 0 < S) :
    ∀ (fuel : ℕ) (st : GenState), st.ps.length = S * S →
    (geneticLoop tgt w ws S fuel st).ps.length = S * S ∧
    (assignmentsOf S (geneticLoop tgt w ws S fuel st).ps).Perm
      (assignmentsOf S st.ps) := by
  intro fuel
  induction fuel with
  | zero => exact fun st h => ⟨h, List.Perm.refl _⟩
  | succ m ih =>
    intro st hlen
    have hgen_len := (trials_inv tgt w ws S hS (128 * st.ps.length) st hlen).1
    have hgen_perm := trials_perm tgt w ws S hS (128 * st.ps.length) st hlen
    simp only [geneticLoop, geneticGeneration]
    split_ifs with hcond
    · exact ⟨hgen_len, hgen_perm⟩
    · have hrec := ih
        ⟨(geneticTrials tgt w ws S (128 * st.ps.length) st).1.ps,
          (geneticTrials tgt w ws S (128 * st.ps.length) st).1.rng,
          max 2 (99 * (geneticTrials tgt w ws S (128 * st.ps.length) st).1.maxDist / 100)⟩
        hgen_len
      exact ⟨hrec.1, hrec.2.trans hgen_perm⟩

/-- The initial assignments are the identity permutation. -/
theorem assignments_init (src tgt : List RGB) (w : List ℤ) (ws : ℤ) (S : ℕ)
    (hlen : src.length = S * S) :
    assignmentsOf S (geneticInit src tgt w ws S) = List.range (S * S) := by
  unfold assignmentsOf geneticInit
  rw [List.map_map, hlen]
  conv_rhs => rw [← List.map_id (List.range (S * S))]
  apply List.map_congr_left
  intro i _
  show (i / S) * S + i % S = id i
  rw [Nat.mul_comm]
  exact Nat.div_add_mod i S

/-- Bool contains agrees with list membership on naturals. -/
theorem contains_iff_mem (l : List ℕ) (a : ℕ) : l.contains a = true ↔ a ∈ l := by
  simp [List.contains_eq_any_beq, List.any_eq_true, beq_iff_eq, eq_comm]

/-- The greedy scan never drops an already-found candidate. -/
theorem greedyConsider_preserve_some (assigned : List ℕ) (score : ℕ → ℤ)
    (acc : Option (ℤ × ℕ)) (j : ℕ) (h : acc.isSome) :
    (greedyConsider assigned score acc j).isSome := by
  unfold greedyConsider
  split_ifs
  · exact h
  · cases acc with
    | none => simp
    | some p =>
      obtain ⟨bs, bi⟩ := p
      dsimp only
      split_ifs <;> simp

/-- The greedy scan returns a candidate once it sees an unconsumed source. -/
theorem greedyConsider_some_of_new (assigned : List ℕ) (score : ℕ → ℤ)
    (acc : Option (ℤ × ℕ)) (j : ℕ) (hj : ¬ (assigned.contains j = true)) :
    (greedyConsider assigned score acc j).isSome := by
  unfold greedyConsider
  rw [if_neg hj]
  cases acc with
  | none => simp
  | some p =>
    obtain ⟨bs, bi⟩ := p
    dsimp only
    split_ifs <;> simp

/-- Folding the greedy scan yields a candidate whenever the accumulator holds
one or some candidate is unconsumed. -/
theorem greedyFold_some (assigned : List ℕ) (score : ℕ → ℤ) :
    ∀ (cands : List ℕ) (acc : Option (ℤ × ℕ)),
    (acc.isSome ∨ ∃ j ∈ cands, ¬ (assigned.contains j = true)) →
    (cands.foldl (greedyConsider assigned score) acc).isSome := by
  intro cands
  induction cands with
  | nil =>
    intro acc h
    rcases h with h | ⟨j, hj, _⟩
    · exact h
    · simp at hj
  | cons j t ih =>
    intro acc h
    simp only [List.foldl_cons]
    apply ih
    rcases h with hs | ⟨k, hk, hnk⟩
    · exact Or.inl (greedyConsider_preserve_some assigned score acc j hs)
    · rcases List.mem_cons.mp hk with rfl | hkt
      · exact Or.inl (greedyConsider_some_of_new assigned score acc k hnk)
      · exact Or.inr ⟨k, hkt, hnk⟩

/-- Any candidate returned by the greedy scan was unconsumed and satisfies any
property holding of unconsumed scanned candidates. -/
theorem greedyFold_prop (assigned : List ℕ) (score : ℕ → ℤ) (P : ℕ → Prop) :
    ∀ (cands : List ℕ), (∀ j ∈ cands, ¬ (assigned.contains j = true) → P j) →
    ∀ (acc : Option (ℤ × ℕ)), (∀ q : ℤ × ℕ, acc = some q → P q.2) →
    ∀ q : ℤ × ℕ, cands.foldl (greedyConsider assigned score) acc = some q → P q.2 := by
  intro cands
  induction cands with
  | nil =>
    intro _ acc hacc q hq
    exact hacc q hq
  | cons j t ih =>
    intro hc acc hacc q hq
    simp only [List.foldl_cons] at hq
    refine ih (fun k hk hnk => hc k (List.mem_cons_of_mem _ hk) hnk) _ ?_ q hq
    intro p hp
    unfold greedyConsider at hp
    by_cases hcont : assigned.contains j = true
    · rw [if_pos hcont] at hp
      exact hacc p hp
    · rw [if_neg hcont] at hp
      cases acc with
      | none =>
        injection hp with hh
        rw [← hh]
        exact hc j (List.mem_cons_self j t) hcont
      | some pr =>
        obtain ⟨bs, bi⟩ := pr
        dsimp only at hp
        split_ifs at hp
        · injection hp with hh
          rw [← hh]
          exact hc j (List.mem_cons_self j t) hcont
        · injection hp with hh
          rw [← hh]
          exact hacc (bs, bi) rfl

/-- One greedy target step: starting from a consistent partial state with
fewer than n = S·S entries, the step finds an unconsumed source and appends
it, preserving consistency, nodup, and bounds. -/
theorem greedyStep_inv (src tgt : List RGB) (w : List ℤ) (ws : ℤ) (S : ℕ)
    (st : List ℕ × List ℕ) (k t : ℕ)
    (heq : st.1 = st.2) (hnd : st.2.Nodup) (hln : st.2.length = k) (hk : k < S * S)
    (hbd : ∀ x ∈ st.2, x < S * S) :
    (greedyStep src tgt w ws S st t).1 = (greedyStep src tgt w ws S st t).2 ∧
    (greedyStep src tgt w ws S st t).2.Nodup ∧
    (greedyStep src tgt w ws S st t).2.length = k + 1 ∧
    (∀ x ∈ (greedyStep src tgt w ws S st t).2, x < S * S) := by
  have hex : ∃ j ∈ List.range (S * S), ¬ (st.1.contains j = true) := by
    by_contra hall
    push_neg at hall
    have hsub : List.range (S * S) ⊆ st.1 := fun j hj =>
      (contains_iff_mem _ _).mp (hall j hj)
    have hsp := List.subperm_of_subset (List.nodup_range _) hsub
    have hle := hsp.length_le
    rw [List.length_range, heq, hln] at hle
    omega
  have hsome : (greedyBest src tgt w ws S st.1 t).isSome := by
    unfold greedyBest
    exact greedyFold_some _ _ _ _ (Or.inr hex)
  obtain ⟨q, hq⟩ := Option.isSome_iff_exists.mp hsome
  have hqp : q.2 ∉ st.2 ∧ q.2 < S * S := by
    have hfold := hq
    unfold greedyBest at hfold
    refine greedyFold_prop st.1 _ (fun j => j ∉ st.2 ∧ j < S * S) (List.range (S * S))
      ?_ none (fun p hp => by simp at hp) q hfold
    intro j hj hnj
    refine ⟨fun hmem => hnj ((contains_iff_mem _ _).mpr ?_), List.mem_range.mp hj⟩
    rw [heq]
    exact hmem
  unfold greedyStep
  rw [hq]
  dsimp only
  refine ⟨by rw [heq], ?_, ?_, ?_⟩
  · refine List.Nodup.append hnd (List.nodup_singleton _) ?_
    intro x hx hy
    rw [List.mem_singleton] at hy
    subst hy
    exact hqp.1 hx
  · simp [hln]
  · intro x hx
    rcases List.mem_append.mp hx with hx | hx
    · exact hbd x hx
    · rw [List.mem_singleton] at hx
      rw [hx]
      exact hqp.2

/-- Invariant of the greedy target loop after m of the n = S·S steps. -/
theorem greedy_run_inv (src tgt : List RGB) (w : List ℤ) (ws : ℤ) (S : ℕ) :
    ∀ (m : ℕ), m ≤ S * S →
    (((List.range m).foldl (fun st t => greedyStep src tgt w ws S st t) ([], [])).1 =
      ((List.range m).foldl (fun st t => greedyStep src tgt w ws S st t) ([], [])).2) ∧
    ((List.range m).foldl (fun st t => greedyStep src tgt w ws S st t) ([], [])).2.Nodup ∧
    ((List.range m).foldl (fun st t => greedyStep src tgt w ws S st t) ([], [])).2.length
      = m ∧
    (∀ x ∈ ((List.range m).foldl (fun st t => greedyStep src tgt w ws S st t)
      ([], [])).2, x < S * S) := by
  intro m
  induction m with
  | zero =>
    intro _
    simp
  | succ k ih =>
    intro hk1
    obtain ⟨heq, hnd, hln, hbd⟩ := ih (Nat.le_of_succ_le hk1)
    rw [List.range_succ, List.foldl_append, List.foldl_cons, List.foldl_nil]
    exact greedyStep_inv src tgt w ws S _ k k heq hnd hln (by omega) hbd

/-- C3: whenever either solver emits a done message, the assignments it
contains are a permutation of [0, N) with N = S·S: the Genetic solver's
output after any fuel, and the Greedy solver's output, each have length N and
contain every index exactly once. -/
theorem C3_done_assignments_permutation :
    (∀ (id : List ℕ) (src : List RGB) (ct : Option (List RGB)) (ws : ℤ) (S fuel : ℕ),
      0 < S → src.length = S * S →
      (processGeneticModel id src ct ws S fuel).Perm (List.range (S * S))) ∧
    (∀ (src : List RGB) (ct : Option (List RGB)) (ws : ℤ) (S : ℕ),
      (processOptimalModel src ct ws S).Perm (List.range (S * S))) := by
  constructor
  · intro id src ct ws S fuel hS hlen
    unfold processGeneticModel
    have hinit_len : (geneticInit src (ct.getD src)
        (List.replicate (ct.getD src).length 255) ws S).length = S * S := by
      simp [geneticInit, hlen]
    have hl := loop_perm (ct.getD src) (List.replicate (ct.getD src).length 255) ws S hS
      fuel ⟨geneticInit src (ct.getD src) (List.replicate (ct.getD src).length 255) ws S,
        hashCode id, S⟩ hinit_len
    refine hl.2.trans ?_
    rw [assignments_init src (ct.getD src) (List.replicate (ct.getD src).length 255)
      ws S hlen]
  · intro src ct ws S
    unfold processOptimalModel
    obtain ⟨heq, hnd, hln, hbd⟩ :=
      greedy_run_inv src (ct.getD src) (List.replicate (ct.getD src).length 255) ws S
        (S * S) le_rfl
    have hfill : ∀ l : List ℕ, l.length = S * S → fillTo l (S * S) = l := by
      intro l hl
      unfold fillTo
      rw [hl]
      simp
    rw [hfill _ hln]
    have hsub : ((List.range (S * S)).foldl
        (fun st t => greedyStep src (ct.getD src)
          (List.replicate (ct.getD src).length 255) ws S st t) ([], [])).2 ⊆
        List.range (S * S) := fun x hx => List.mem_range.mpr (hbd x hx)
    exact (List.subperm_of_subset hnd hsub).perm_of_length_le
      (by rw [List.length_range, hln])

/-- Concrete instance of C3: the Genetic output on the 2×2 example is a
permutation of range 4. -/
theorem C3_done_assignments_permutation_witness :
    (processGeneticModel [97] c2src none 13 2 0).Perm (List.range (2 * 2)) :=
  C3_done_assignments_permutation.1 [97] c2src none 13 2 0 (by decide) (by decide)

/-- The nearest-seed scan keeps its accumulator when no scanned candidate
strictly improves on it. -/
theorem nearestFold_const (seeds : List Seed) (x y : ℚ) :
    ∀ (l : List ℕ) (m : ℚ) (i : ℕ),
    (∀ j ∈ l, ¬ dist2 (seeds.getD j ⟨0, 0⟩) x y < m) →
    l.foldl (nearestStep seeds x y) (some m, i) = (some m, i) := by
  intro l
  induction l with
  | nil => intro m i _; rfl
  | cons j t ih =>
    intro m i hl
    simp only [List.foldl_cons]
    have hstep : nearestStep seeds x y (some m, i) j = (some m, i) := by
      unfold nearestStep
      dsimp only
      rw [if_neg (hl j (List.mem_cons_self j t))]
    rw [hstep]
    exact ih m i fun k hk => hl k (List.mem_cons_of_mem _ hk)

/-- The nearest-seed scan returns the strict minimum when it is scanned and
beats the accumulator. -/
theorem nearestFold_min (seeds : List Seed) (x y : ℚ) (target : ℕ) :
    ∀ (l : List ℕ) (acc : Option ℚ × ℕ),
    target ∈ l →
    (∀ j ∈ l, j ≠ target →
      dist2 (seeds.getD target ⟨0, 0⟩) x y < dist2 (seeds.getD j ⟨0, 0⟩) x y) →
    (acc.1 = none ∨ ∃ m, acc.1 = some m ∧ dist2 (seeds.getD target ⟨0, 0⟩) x y < m) →
    l.foldl (nearestStep seeds x y) acc =
      (some (dist2 (seeds.getD target ⟨0, 0⟩) x y), target) := by
  intro l
  induction l with
  | nil =>
    intro acc h
    simp at h
  | cons j t ih =>
    intro acc hmem hmin hacc
    simp only [List.foldl_cons]
    by_cases hj : j = target
    · subst hj
      have hstep : nearestStep seeds x y acc j =
          (some (dist2 (seeds.getD j ⟨0, 0⟩) x y), j) := by
        unfold nearestStep
        rcases hacc with hnone | ⟨m, hsome, hlt⟩
        · rw [hnone]
        · rw [hsome]
          dsimp only
          rw [if_pos hlt]
      rw [hstep]
      refine nearestFold_const seeds x y t _ j fun k hk => ?_
      by_cases hkt : k = j
      · subst hkt
        exact lt_irrefl _
      · exact not_lt.mpr (le_of_lt (hmin k (List.mem_cons_of_mem _ hk) hkt))
    · have hmem2 : target ∈ t := by
        rcases List.mem_cons.mp hmem with h | h
        · exact absurd h.symm hj
        · exact h
      refine ih _ hmem2 (fun k hk hkt => hmin k (List.mem_cons_of_mem _ hk) hkt) ?_
      unfold nearestStep
      rcases hacc with hnone | ⟨m, hsome, hlt⟩
      · rw [hnone]
        exact Or.inr ⟨_, rfl, hmin j (List.mem_cons_self j t) hj⟩
      · rw [hsome]
        dsimp only
        split_ifs with hdj
        · exact Or.inr ⟨_, rfl, hmin j (List.mem_cons_self j t) hj⟩
        · exact Or.inr ⟨m, hsome, hlt⟩

/-- Every index scanned by the bucket window is a valid seed index. -/
theorem windowSeeds_mem_lt (seeds : List Seed) (width height : ℕ) (x y : ℚ)
    (j : ℕ) (hj : j ∈ windowSeeds seeds width height x y) : j < seeds.length := by
  unfold windowSeeds at hj
  obtain ⟨d, _, hjd⟩ := List.mem_flatMap.mp hj
  dsimp only at hjd
  split at hjd
  · simp at hjd
  · unfold gridBucket at hjd
    exact List.mem_range.mp (List.mem_filter.mp hjd).1

/-- C5 (amended): at every pixel whose strictly nearest seed lies in the
optimized rasterizer's radius-2 bucket window, renderVoronoiOptimized writes
the same RGBA bytes as the brute-force renderVoronoi, namely those of that
nearest seed. -/
theorem C5_rasterizer_agreement (seeds : List Seed) (colors : List SeedColor)
    (width height : ℕ) (x y : ℚ) (i : ℕ) (hi : i < seeds.length)
    (hwin : i ∈ windowSeeds seeds width height x y)
    (hmin : ∀ j ∈ List.range seeds.length, j ≠ i →
      dist2 (seeds.getD i ⟨0, 0⟩) x y < dist2 (seeds.getD j ⟨0, 0⟩) x y) :
    renderVoronoiOptimizedPixel seeds colors width height x y =
      renderVoronoiPixel seeds colors x y ∧
    renderVoronoiOptimizedPixel seeds colors width height x y = pixelBytes colors i := by
  have hbrute : nearestInList seeds x y (List.range seeds.length) =
      (some (dist2 (seeds.getD i ⟨0, 0⟩) x y), i) := by
    unfold nearestInList
    exact nearestFold_min seeds x y i (List.range seeds.length) (none, 0)
      (List.mem_range.mpr hi) hmin (Or.inl rfl)
  have hopt : nearestInList seeds x y (windowSeeds seeds width height x y) =
      (some (dist2 (seeds.getD i ⟨0, 0⟩) x y), i) := by
    unfold nearestInList
    refine nearestFold_min seeds x y i _ (none, 0) hwin ?_ (Or.inl rfl)
    intro j hjw hji
    exact hmin j (List.mem_range.mpr (windowSeeds_mem_lt seeds width height x y j hjw)) hji
  constructor
  · unfold renderVoronoiOptimizedPixel renderVoronoiPixel
    rw [hbrute, hopt]
  · unfold renderVoronoiOptimizedPixel
    rw [hopt]

/-- Concrete instantiation of the rasterizer agreement: on a 16×16 board with
seeds (1,1) and (15,15), pixel (0,0) has seed 0 as its unique strictly nearest
seed, that seed lies in the radius-2 bucket window, and the two rasterizers
write the same bytes there. -/
theorem C5_rasterizer_agreement_witness :
    (0 : ℕ) < wseeds.length ∧
    (0 : ℕ) ∈ windowSeeds wseeds 16 16 0 0 ∧
    renderVoronoiOptimizedPixel wseeds wcolors 16 16 0 0 =
      renderVoronoiPixel wseeds wcolors 0 0 := by
  have hw : windowSeeds wseeds 16 16 0 0 = [0, 1] := by
    norm_num [windowSeeds, cellSizeOf, ceilSqrt, ceilDiv, gridBucket, seedCellIndex,
      wseeds, List.range_succ, List.flatMap_cons, List.filter, List.mem_cons]
  have hwin : (0 : ℕ) ∈ windowSeeds wseeds 16 16 0 0 := by rw [hw]; decide
  have hmin : ∀ j ∈ List.range wseeds.length, j ≠ 0 →
      dist2 (wseeds.getD 0 ⟨0, 0⟩) 0 0 < dist2 (wseeds.getD j ⟨0, 0⟩) 0 0 := by
    intro j hj hne
    simp only [wseeds, List.mem_range, List.length_cons, List.length_nil] at hj
    interval_cases j
    · exact absurd rfl hne
    · norm_num [wseeds, dist2]
  exact ⟨by decide, hwin,
    (C5_rasterizer_agreement wseeds wcolors 16 16 0 0 0 (by decide) hwin hmin).1⟩

/-- An input where a seed does lie in pixel (0,0)'s radius-2 bucket window —
the window scan is even nonempty — yet the optimized rasterizer disagrees with
the brute-force one: the strictly nearest seed (index 1, green) sits in a
bucket outside the window, so the optimized scan settles for the in-window
seed 0 (red). -/
theorem C5_window_counterexample :
    windowSeeds cseeds 16 8 0 0 ≠ [] ∧
    renderVoronoiOptimizedPixel cseeds ccolors 16 8 0 0 ≠
      renderVoronoiPixel cseeds ccolors 0 0 := by
  have hw : windowSeeds cseeds 16 8 0 0 = [0] := by
    norm_num [windowSeeds, cellSizeOf, ceilSqrt, ceilDiv, gridBucket, seedCellIndex,
      cseeds, List.range_succ, List.flatMap_cons, List.filter, List.mem_cons]
  constructor
  · rw [hw]
    exact List.cons_ne_nil 0 []
  · simp only [renderVoronoiOptimizedPixel, renderVoronoiPixel, nearestInList, hw]
    norm_num [cseeds, ccolors, nearestStep, dist2, pixelBytes, List.range_succ]

end Obamify
